import Mathlib

/-!
Verification of the Ruggy embedded document store (Rust sources:
`src/collection.rs`, `src/db.rs`, `src/ffi.rs`).

The development is a shallow embedding: JSON values become an inductive
type, the durable file becomes a list of lines modelled at value
granularity (the external `serde_json` library guarantees that
`to_string` produces a single line that `from_str` parses back to an
equal value, so a line that parses is represented by the value it parses
to), and each `Collection` operation becomes a pure function on an
explicit state.  Randomness (UUID v4 generation) is modelled by passing
the drawn 128-bit value as an explicit argument.
-/

set_option autoImplicit false

namespace Ruggy

/-- JSON values, mirroring `serde_json::Value`.  Numbers are modelled as
integers (`i64` rendering); objects keep their fields as an ordered
association list. -/
inductive Value where
  | null
  | bool (b : Bool)
  | num (n : Int)
  | str (s : String)
  | arr (xs : List Value)
  | obj (fields : List (String × Value))

/-- Lookup of a key in an object field list (first occurrence). -/
def getField : List (String × Value) → String → Option Value
  | [], _ => none
  | (k, v) :: rest, key => if k = key then some v else getField rest key

/-- `Value::get(key)`: `Some` only for objects containing the key. -/
def Value.get : Value → String → Option Value
  | .obj fs, key => getField fs key
  | _, _ => none

/-- `Value::as_str()`. -/
def Value.asStr : Value → Option String
  | .str s => some s
  | _ => none

/-- `Value::is_object()` / success of `as_object_mut`. -/
def Value.isObj : Value → Bool
  | .obj _ => true
  | _ => false

/-- `Map::insert` on an object field list: replace in place when the key
is present, otherwise add the binding. -/
def setField : List (String × Value) → String → Value → List (String × Value)
  | [], key, v => [(key, v)]
  | (k, w) :: rest, key, v =>
    if k = key then (key, v) :: rest else (k, w) :: setField rest key v

/-- The `_id` of a document: `doc.get("_id").and_then(|v| v.as_str())`. -/
def idOf (doc : Value) : Option String :=
  (doc.get "_id").bind Value.asStr

/-- One hexadecimal digit character. -/
def hexChar (n : Nat) : Char :=
  if n = 0 then '0' else if n = 1 then '1' else if n = 2 then '2'
  else if n = 3 then '3' else if n = 4 then '4' else if n = 5 then '5'
  else if n = 6 then '6' else if n = 7 then '7' else if n = 8 then '8'
  else if n = 9 then '9' else if n = 10 then 'a' else if n = 11 then 'b'
  else if n = 12 then 'c' else if n = 13 then 'd' else if n = 14 then 'e'
  else 'f'

/-- `width` hex digits of `n`, least significant first. -/
def toHexRev : Nat → Nat → List Char
  | 0, _ => []
  | w + 1, n => hexChar (n % 16) :: toHexRev w (n / 16)

/-- `n` rendered as exactly `width` hex digits, most significant first. -/
def toHexPad (n width : Nat) : List Char :=
  (toHexRev width n).reverse

/-- `Uuid::to_string()`: the 128-bit value rendered as 32 lowercase hex
digits in the canonical hyphenated 8-4-4-4-12 layout. -/
def uuidToString (r : Nat) : String :=
  let cs := toHexPad r 32
  String.mk (cs.take 8 ++ '-' :: ((cs.drop 8).take 4 ++ '-' ::
    (((cs.drop 8).drop 4).take 4 ++ '-' ::
      ((((cs.drop 8).drop 4).drop 4).take 4 ++ '-' ::
        (((cs.drop 8).drop 4).drop 4).drop 4))))

/-- Rust `str::starts_with` on character lists (haystack, pattern). -/
def listStartsWith : List Char → List Char → Bool
  | _, [] => true
  | [], _ :: _ => false
  | c :: cs, p :: ps => c == p && listStartsWith cs ps

/-- Rust `str::ends_with` on character lists (haystack, pattern). -/
def listEndsWith (hs pat : List Char) : Bool :=
  listStartsWith hs.reverse pat.reverse

/-- Rust `str::contains` on character lists (haystack, pattern). -/
def listContains : List Char → List Char → Bool
  | [], pat => pat.isEmpty
  | c :: rest, pat => listStartsWith (c :: rest) pat || listContains rest pat

/-- JSON string escaping as performed by the serializer. -/
def escChar (c : Char) : List Char :=
  if c = '"' then ['\\', '"']
  else if c = '\\' then ['\\', '\\']
  else if c = '\n' then ['\\', 'n']
  else if c = '\t' then ['\\', 't']
  else if c = '\r' then ['\\', 'r']
  else if c.toNat < 32 then
    ['\\', 'u', '0', '0', hexChar (c.toNat / 16), hexChar (c.toNat % 16)]
  else [c]

/-- Escape every character of a string. -/
def escapeString (s : String) : List Char :=
  (s.data.map escChar).flatten

mutual

/-- `serde_json::to_string`: compact single-line rendering of a value. -/
def renderValue : Value → String
  | .null => "null"
  | .bool true => "true"
  | .bool false => "false"
  | .num n => toString n
  | .str s => "\"" ++ String.mk (escapeString s) ++ "\""
  | .arr xs => "[" ++ renderElems xs ++ "]"
  | .obj fs => "\x7b" ++ renderFields fs ++ "\x7d"

/-- Comma-separated rendering of array elements. -/
def renderElems : List Value → String
  | [] => ""
  | [x] => renderValue x
  | x :: y :: rest => renderValue x ++ "," ++ renderElems (y :: rest)

/-- Comma-separated rendering of object fields. -/
def renderFields : List (String × Value) → String
  | [] => ""
  | [(k, v)] => "\"" ++ String.mk (escapeString k) ++ "\":" ++ renderValue v
  | (k, v) :: kv :: rest =>
    "\"" ++ String.mk (escapeString k) ++ "\":" ++ renderValue v ++ "," ++
      renderFields (kv :: rest)

end

/-- One line of a collection file, at value granularity: `val v` is a
line whose text parses (under `serde_json::from_str`) to `v` — in
particular every line the program itself writes, which is
`renderValue v`; `blank` is a whitespace-only line; `junk` is a
non-blank line that fails to parse. -/
inductive FileLine where
  | val (v : Value)
  | blank
  | junk (s : String)

/-- Reading one line during `Collection::new`: blank lines are skipped
and lines that fail to parse are silently discarded. -/
def loadLine : FileLine → Option Value
  | .val v => some v
  | .blank => none
  | .junk _ => none

/-- The in-memory sequence loaded from a file, in file order. -/
def loadData (file : List FileLine) : List Value :=
  file.filterMap loadLine

/-- The bytes of one line as written by this program (`writeln!`):
line text followed by a newline. -/
def lineBytes : FileLine → String
  | .val v => renderValue v ++ "\n"
  | .blank => "\n"
  | .junk s => s ++ "\n"

/-- The bytes of a whole collection file. -/
def fileBytes (file : List FileLine) : String :=
  String.join (file.map lineBytes)

/-- Error taxonomy of collection operations visible to these claims. -/
inductive RErr where
  | invalidInput
deriving DecidableEq

/-- A `Collection`: the in-memory document sequence (`data: RwLock<Vec<Value>>`)
and the durable file it owns.  Name, path and the lock/writer handles are
not part of the sequential state. -/
structure Collection where
  data : List Value
  file : List FileLine

/-- `Collection::new`: open the file (created empty when absent) and load
every parseable non-blank line, in file order. -/
def Collection.new (file : List FileLine) : Collection :=
  { data := loadData file, file := file }

/-- `Collection::insert`: generate the id from the drawn 128-bit value
`r`, set it as `_id` when the document is an object (otherwise fail with
`InvalidInput` before touching disk or memory), append the serialized
line to the file, then push the tagged document onto the sequence. -/
def Collection.insert (c : Collection) (r : Nat) (document : Value) :
    Except RErr String × Collection :=
  let id := uuidToString r
  match document with
  | .obj fields =>
    let tagged := Value.obj (setField fields "_id" (Value.str id))
    (.ok id, { data := c.data ++ [tagged], file := c.file ++ [FileLine.val tagged] })
  | _ => (.error RErr.invalidInput, c)

/-- `Collection::find_all`: a copy of the sequence. -/
def Collection.find_all (c : Collection) : List Value :=
  c.data

/-- The filter predicate of `Collection::find_with_operator`, translated
from its `match` on the field value and the operator string. -/
def opPred (field value operator : String) (doc : Value) : Bool :=
  match doc.get field with
  | some (Value.str s) =>
    if operator = "=" ∨ operator = "==" ∨ operator = "eq" then s == value
    else if operator = "like" ∨ operator = "LIKE" ∨ operator = "contains" then
      listContains s.data value.data
    else if operator = "starts_with" then listStartsWith s.data value.data
    else if operator = "ends_with" then listEndsWith s.data value.data
    else false
  | some (Value.num n) =>
    if operator = "=" ∨ operator = "==" ∨ operator = "eq" then
      toString n == value
    else false
  | _ => false

/-- `Collection::find_with_operator`. -/
def Collection.find_with_operator (c : Collection)
    (field value operator : String) : List Value :=
  c.data.filter (opPred field value operator)

/-- `Collection::persist`: truncate the file and rewrite every document,
in sequence order, as one JSON line each. -/
def Collection.persist (c : Collection) : Collection :=
  { c with file := c.data.map FileLine.val }

/-- The update loop of `Collection::update_field`: walk the sequence; on
the first document whose `_id` string equals `id` and which is an
object, set `field` and stop; otherwise keep walking. -/
def updateList (id field : String) (value : Value) : List Value → List Value × Bool
  | [] => ([], false)
  | doc :: rest =>
    match idOf doc with
    | some docId =>
      if docId = id then
        match doc with
        | Value.obj fs => (Value.obj (setField fs field value) :: rest, true)
        | _ =>
          let r := updateList id field value rest
          (doc :: r.1, r.2)
      else
        let r := updateList id field value rest
        (doc :: r.1, r.2)
    | none =>
      let r := updateList id field value rest
      (doc :: r.1, r.2)

/-- `Collection::update_field`: run the update loop; when a document was
updated, re-persist the whole collection; otherwise return `false` with
no disk activity. -/
def Collection.update_field (c : Collection) (id field : String)
    (value : Value) : Collection × Bool :=
  let r := updateList id field value c.data
  if r.2 then (({ c with data := r.1 }).persist, true)
  else ({ c with data := r.1 }, false)

/-- The search of `Collection::delete_by_id`: remove the first document
whose `_id` string equals `id`, when one exists. -/
def deleteFirst (id : String) : List Value → Option (List Value)
  | [] => none
  | doc :: rest =>
    if idOf doc = some id then some rest
    else
      match deleteFirst id rest with
      | some rest2 => some (doc :: rest2)
      | none => none

/-- `Collection::delete_by_id`: when a document with that `_id` exists,
remove it and re-persist; otherwise return `false` with no disk
activity. -/
def Collection.delete_by_id (c : Collection) (id : String) : Collection × Bool :=
  match deleteFirst id c.data with
  | some data2 => (({ c with data := data2 }).persist, true)
  | none => (c, false)

/-- Registry lookup, mirroring `HashMap::get` on the collection map. -/
def lookupCol : List (String × Collection) → String → Option Collection
  | [], _ => none
  | (k, c) :: rest, name => if k = name then some c else lookupCol rest name

/-- A `Database`: the root directory (modelled as the content of the file
`<root>/<name>.col` for every name; an absent file reads as empty) and
the registry of live collections. -/
structure Database where
  fs : String → List FileLine
  collections : List (String × Collection)

/-- `Database::collection`: return the cached instance when one exists,
otherwise construct a `Collection` over `<root>/<name>.col` and cache
it. -/
def Database.collection (d : Database) (name : String) : Collection × Database :=
  match lookupCol d.collections name with
  | some col => (col, d)
  | none =>
    let col := Collection.new (d.fs name)
    (col, { d with collections := d.collections ++ [(name, col)] })

/-- Outcome of a C-boundary call in the pointer-nullness model: either a
normal return, or an unchecked dereference of a null handle (undefined
behavior in the C ABI — the call does not return normally). -/
inductive FfiResult (α : Type) where
  | ret (a : α)
  | nullDeref

/-- `ruggy_get_collection`: the code checks `db.is_null()` first and
returns a null pointer without dereferencing; otherwise it delegates to
`Database::collection` and boxes the shared handle. -/
def ruggy_get_collection (db : Option Database) (name : String) :
    FfiResult (Option Collection × Option Database) :=
  match db with
  | none => FfiResult.ret (none, none)
  | some d =>
    let r := d.collection name
    FfiResult.ret (some r.1, some r.2)

/-- `ruggy_insert`: the code casts the handle and dereferences it with no
null check, then parses the JSON text (`none` models a parse failure,
returning null without inserting) and delegates to `Collection::insert`. -/
def ruggy_insert (col : Option Collection) (r : Nat) (parsedJson : Option Value) :
    FfiResult (Option String × Option Collection) :=
  match col with
  | none => FfiResult.nullDeref
  | some c =>
    match parsedJson with
    | none => FfiResult.ret (none, some c)
    | some v =>
      match c.insert r v with
      | (Except.ok id, c2) => FfiResult.ret (some id, some c2)
      | (Except.error _, c2) => FfiResult.ret (none, some c2)

/-- `ruggy_find_all`: the code casts the handle and dereferences it with
no null check, then renders the documents as JSON-array text. -/
def ruggy_find_all (col : Option Collection) : FfiResult String :=
  match col with
  | none => FfiResult.nullDeref
  | some c => FfiResult.ret (renderValue (Value.arr c.find_all))

/-- The document as tagged by an insert that drew the 128-bit value `r`
(non-objects are rejected before tagging). -/
def tagDoc (r : Nat) : Value → Value
  | Value.obj fs => Value.obj (setField fs "_id" (Value.str (uuidToString r)))
  | v => v

/-- A sequence of inserts, each document paired with the random value
drawn for its id; stops at the first failure. -/
def insertAll : Collection → List (Nat × Value) → Except RErr Collection
  | c, [] => Except.ok c
  | c, (r, d) :: rest =>
    match c.insert r d with
    | (Except.ok _, c2) => insertAll c2 rest
    | (Except.error e, _) => Except.error e

/-- Spec-side match predicate, written from the words of claim C3: a
document matches when its `field` is a string related to `value` by the
operator (exact equality for the equality spellings, substring for the
like spellings, prefix for `starts_with`, suffix for `ends_with`), plus,
for the equality spellings only, when its `field` is a number whose
string rendering equals `value`; absent fields, other JSON types and
unknown operators never match. -/
def claimMatches (field value operator : String) (doc : Value) : Bool :=
  match doc.get field with
  | some (Value.str s) =>
    (decide (operator = "=" ∨ operator = "==" ∨ operator = "eq") && (s == value)) ||
    (decide (operator = "like" ∨ operator = "LIKE" ∨ operator = "contains") &&
      listContains s.data value.data) ||
    (decide (operator = "starts_with") && listStartsWith s.data value.data) ||
    (decide (operator = "ends_with") && listEndsWith s.data value.data)
  | some (Value.num n) =>
    decide (operator = "=" ∨ operator = "==" ∨ operator = "eq") &&
      (toString n == value)
  | _ => false

/-! ## Helper lemmas -/

theorem toHexRev_length (w : Nat) : ∀ n : Nat, (toHexRev w n).length = w := by
  induction w with
  | zero => intro n; rfl
  | succ k ih => intro n; simp [toHexRev, ih]

theorem uuidToString_length (r : Nat) : (uuidToString r).length = 36 := by
  have h32 : (toHexPad r 32).length = 32 := by
    simp [toHexPad, toHexRev_length]
  simp [uuidToString, String.length, List.length_append, List.length_take,
    List.length_drop, h32]

theorem uuidToString_ne_empty (r : Nat) : uuidToString r ≠ "" := by
  intro h
  have hlen := uuidToString_length r
  rw [h] at hlen
  simp at hlen

theorem getField_setField (fs : List (String × Value)) (key f : String) (v : Value) :
    getField (setField fs key v) f = if key = f then some v else getField fs f := by
  induction fs with
  | nil =>
    by_cases h : key = f <;> simp [setField, getField, h]
  | cons kv rest ih =>
    obtain ⟨k2, w⟩ := kv
    by_cases h1 : k2 = key
    · subst h1
      by_cases h2 : k2 = f <;> simp [setField, getField, h2]
    · by_cases h2 : key = f
      · subst h2
        simp [setField, getField, h1, ih, Ne.symm h1]
      · simp [setField, getField, h1, ih, h2]

theorem loadData_map_val (l : List Value) : loadData (l.map FileLine.val) = l := by
  induction l with
  | nil => rfl
  | cons x xs ih => simp [loadData, loadLine, List.filterMap_cons] at ih ⊢; exact ih

theorem opPred_eq_claimMatches (field value operator : String) (doc : Value) :
    opPred field value operator doc = claimMatches field value operator doc := by
  unfold opPred claimMatches
  cases hget : doc.get field with
  | none => rfl
  | some v =>
    cases v with
    | str s =>
      by_cases hA : operator = "=" ∨ operator = "==" ∨ operator = "eq"
      · rcases hA with h | h | h <;> subst h <;> simp
      · by_cases hB : operator = "like" ∨ operator = "LIKE" ∨ operator = "contains"
        · rcases hB with h | h | h <;> subst h <;> simp
        · by_cases hC : operator = "starts_with"
          · subst hC; simp
          · by_cases hD : operator = "ends_with"
            · subst hD; simp
            · simp [hA, hB, hC, hD]
    | num n => by_cases hA : operator = "=" ∨ operator = "==" ∨ operator = "eq" <;> simp [hA]
    | null => rfl
    | bool b => rfl
    | arr xs => rfl
    | obj fs => rfl

theorem opPred_unknown_false (field value operator : String) (doc : Value)
    (h1 : operator ≠ "=") (h2 : operator ≠ "==") (h3 : operator ≠ "eq")
    (h4 : operator ≠ "like") (h5 : operator ≠ "LIKE") (h6 : operator ≠ "contains")
    (h7 : operator ≠ "starts_with") (h8 : operator ≠ "ends_with") :
    opPred field value operator doc = false := by
  unfold opPred
  cases doc.get field with
  | none => rfl
  | some v => cases v <;> simp [h1, h2, h3, h4, h5, h6, h7, h8]

/-! ## Claim theorems -/

/-- C4: insert on a value that is not a JSON object fails with
`InvalidInput` and leaves the in-memory sequence and the durable file
unchanged, and `InvalidInput` is returned exactly for non-object
inputs. -/
theorem insert_invalidInput_iff (c : Collection) (r : Nat) (d : Value) :
    ((c.insert r d).1 = Except.error RErr.invalidInput ↔ d.isObj = false) ∧
    (d.isObj = false → (c.insert r d).2 = c) := by
  cases d <;> simp [Collection.insert, Value.isObj]

/-- Witness for C4 at a concrete non-object input. -/
theorem insert_invalidInput_iff_witness :
    ((Collection.new []).insert 0 (Value.num 3)).1 = Except.error RErr.invalidInput ∧
    ((Collection.new []).insert 0 (Value.num 3)).2 = Collection.new [] :=
  ⟨(insert_invalidInput_iff (Collection.new []) 0 (Value.num 3)).1.mpr rfl,
   (insert_invalidInput_iff (Collection.new []) 0 (Value.num 3)).2 rfl⟩

/-- C6: persist is idempotent on the file — calling it twice in a row
with no intervening mutation yields the same file, hence byte-identical
content after each call. -/
theorem persist_idempotent (c : Collection) :
    (c.persist.persist).file = c.persist.file ∧
    fileBytes (c.persist.persist).file = fileBytes c.persist.file := by
  simp [Collection.persist]

/-- C9: construction keeps every line that parses as any JSON value,
objects or not, in file order, and `find_all` returns exactly the loaded
sequence. -/
theorem load_keeps_parsed_values (file : List FileLine) :
    (Collection.new file).find_all = loadData file ∧
    ∀ v : Value, FileLine.val v ∈ file → v ∈ (Collection.new file).find_all := by
  refine ⟨rfl, fun v hv => ?_⟩
  exact List.mem_filterMap.mpr ⟨FileLine.val v, hv, rfl⟩

/-- Witness for C9: a file holding a non-object value (a number), a blank
line and a corrupt line; the number is loaded and returned. -/
theorem load_keeps_parsed_values_witness :
    Value.num 5 ∈
      (Collection.new [FileLine.val (Value.num 5), FileLine.blank,
        FileLine.junk "oops"]).find_all :=
  (load_keeps_parsed_values
    [FileLine.val (Value.num 5), FileLine.blank, FileLine.junk "oops"]).2
    (Value.num 5) (List.mem_cons_self _ _)

/-- C3: `find_with_operator` returns exactly the documents matching the
spec-side operator table (`claimMatches`), and any operator outside the
known spellings yields an empty result rather than an error. -/
theorem find_with_operator_spec (c : Collection) (field value operator : String) :
    c.find_with_operator field value operator =
      c.data.filter (claimMatches field value operator) ∧
    (operator ∉ (["=", "==", "eq", "like", "LIKE", "contains",
        "starts_with", "ends_with"] : List String) →
      c.find_with_operator field value operator = []) := by
  constructor
  · unfold Collection.find_with_operator
    exact List.filter_congr (fun doc _ => opPred_eq_claimMatches field value operator doc)
  · intro hop
    simp only [List.mem_cons, List.mem_singleton, not_or] at hop
    obtain ⟨h1, h2, h3, h4, h5, h6, h7, h8, -⟩ := hop
    unfold Collection.find_with_operator
    refine List.filter_eq_nil_iff.mpr (fun doc _ => ?_)
    simp [opPred_unknown_false field value operator doc h1 h2 h3 h4 h5 h6 h7 h8]

/-- Witness for C3: the unknown operator `bogus_op` on a collection
holding `\x7b"name": "hello world"\x7d` returns the empty list. -/
theorem find_with_operator_spec_witness :
    (Collection.new [FileLine.val (Value.obj [("name", Value.str "hello world")])]).find_with_operator
      "name" "hello world" "bogus_op" = [] :=
  (find_with_operator_spec
    (Collection.new [FileLine.val (Value.obj [("name", Value.str "hello world")])])
    "name" "hello world" "bogus_op").2 (by decide)

/-- C2: inserting a JSON object succeeds, returns the freshly generated
id (a non-empty string), appends the tagged document at the end of the
sequence, and the tagged document carries the assigned `_id` (any
caller-supplied `_id` is overwritten) while agreeing with the input on
every other field. -/
theorem insert_tags_and_appends (c : Collection) (r : Nat) (d : Value)
    (h : d.isObj = true) :
    (c.insert r d).1 = Except.ok (uuidToString r) ∧
    uuidToString r ≠ "" ∧
    ((c.insert r d).2).find_all = c.find_all ++ [tagDoc r d] ∧
    (tagDoc r d).get "_id" = some (Value.str (uuidToString r)) ∧
    ∀ f : String, f ≠ "_id" → (tagDoc r d).get f = d.get f := by
  cases d with
  | obj fs =>
    refine ⟨rfl, uuidToString_ne_empty r, rfl, ?_, ?_⟩
    · simp [tagDoc, Value.get, getField_setField]
    · intro f hf
      simp [tagDoc, Value.get, getField_setField, Ne.symm hf]
  | null => simp [Value.isObj] at h
  | bool b => simp [Value.isObj] at h
  | num n => simp [Value.isObj] at h
  | str s => simp [Value.isObj] at h
  | arr xs => simp [Value.isObj] at h

/-- Witness for C2 at a concrete document that carries a caller-supplied
`_id` (which gets overwritten). -/
theorem insert_tags_and_appends_witness :
    ((Collection.new []).insert 0 (Value.obj [("a", Value.num 1), ("_id", Value.str "caller")])).1 =
      Except.ok (uuidToString 0) ∧
    uuidToString 0 ≠ "" ∧
    (((Collection.new []).insert 0 (Value.obj [("a", Value.num 1), ("_id", Value.str "caller")])).2).find_all =
      (Collection.new []).find_all ++
        [tagDoc 0 (Value.obj [("a", Value.num 1), ("_id", Value.str "caller")])] ∧
    (tagDoc 0 (Value.obj [("a", Value.num 1), ("_id", Value.str "caller")])).get "_id" =
      some (Value.str (uuidToString 0)) ∧
    ∀ f : String, f ≠ "_id" →
      (tagDoc 0 (Value.obj [("a", Value.num 1), ("_id", Value.str "caller")])).get f =
        (Value.obj [("a", Value.num 1), ("_id", Value.str "caller")]).get f :=
  insert_tags_and_appends (Collection.new []) 0
    (Value.obj [("a", Value.num 1), ("_id", Value.str "caller")]) rfl

theorem updateList_no_match (id field : String) (v : Value) (l : List Value)
    (h : ∀ doc ∈ l, idOf doc ≠ some id) :
    updateList id field v l = (l, false) := by
  induction l with
  | nil => rfl
  | cons doc rest ih =>
    have hdoc := h doc (List.mem_cons_self doc rest)
    have hrest : ∀ doc2 ∈ rest, idOf doc2 ≠ some id :=
      fun doc2 hd => h doc2 (List.mem_cons_of_mem _ hd)
    cases hid : idOf doc with
    | none => simp [updateList, hid, ih hrest]
    | some docId =>
      have hne : ¬(docId = id) := fun he => hdoc (by rw [hid, he])
      simp [updateList, hid, hne, ih hrest]

/-- C5: `update_field` with an id that matches no document's `_id`
returns false and leaves the whole collection state — in-memory sequence
and file — unchanged, with no persist. -/
theorem update_field_missing_id (c : Collection) (id field : String) (v : Value)
    (h : ∀ doc ∈ c.data, idOf doc ≠ some id) :
    c.update_field id field v = (c, false) := by
  unfold Collection.update_field
  rw [updateList_no_match id field v c.data h]
  simp

/-- Witness for C5 at a concrete collection and a missing id. -/
theorem update_field_missing_id_witness :
    (Collection.new [FileLine.val (Value.obj [("_id", Value.str "a")])]).update_field
      "zzz" "f" Value.null =
    (Collection.new [FileLine.val (Value.obj [("_id", Value.str "a")])], false) :=
  update_field_missing_id
    (Collection.new [FileLine.val (Value.obj [("_id", Value.str "a")])])
    "zzz" "f" Value.null (by decide)

/-- C7: deleting the only remaining document by its `_id` returns true,
leaves the durable file with zero lines (empty bytes), and `find_all`
afterwards is empty. -/
theorem delete_last_document (c : Collection) (d : Value) (id : String)
    (hdata : c.data = [d]) (hid : idOf d = some id) :
    (c.delete_by_id id).2 = true ∧
    ((c.delete_by_id id).1).file = [] ∧
    ((c.delete_by_id id).1).find_all = [] ∧
    fileBytes ((c.delete_by_id id).1).file = "" := by
  unfold Collection.delete_by_id
  rw [hdata]
  simp [deleteFirst, hid, Collection.persist, Collection.find_all, fileBytes,
    String.join]

/-- Witness for C7 at a one-document collection. -/
theorem delete_last_document_witness :
    ((Collection.new [FileLine.val (Value.obj [("_id", Value.str "a")])]).delete_by_id "a").2 = true ∧
    (((Collection.new [FileLine.val (Value.obj [("_id", Value.str "a")])]).delete_by_id "a").1).file = [] ∧
    (((Collection.new [FileLine.val (Value.obj [("_id", Value.str "a")])]).delete_by_id "a").1).find_all = [] ∧
    fileBytes (((Collection.new [FileLine.val (Value.obj [("_id", Value.str "a")])]).delete_by_id "a").1).file = "" :=
  delete_last_document
    (Collection.new [FileLine.val (Value.obj [("_id", Value.str "a")])])
    (Value.obj [("_id", Value.str "a")]) "a" rfl (by decide)

/-- C8 (code bug): the claim requires every boundary function to reject a
null handle without dereferencing it, but `ruggy_insert` and
`ruggy_find_all` cast and dereference the collection handle with no null
check — on a null handle they hit a null dereference instead of
returning their failure value; only `ruggy_get_collection` (and the free
functions) check for null first. -/
theorem ffi_null_handle_behavior :
    ruggy_insert none 0 (some (Value.obj [])) = FfiResult.nullDeref ∧
    ruggy_find_all none = FfiResult.nullDeref ∧
    ruggy_get_collection none "users" = FfiResult.ret (none, none) :=
  ⟨rfl, rfl, rfl⟩

theorem insertAll_ok (docs : List (Nat × Value)) (c : Collection)
    (h : ∀ p ∈ docs, (p.2).isObj = true) :
    insertAll c docs = Except.ok
      { data := c.data ++ docs.map (fun p => tagDoc p.1 p.2),
        file := c.file ++ docs.map (fun p => FileLine.val (tagDoc p.1 p.2)) } := by
  induction docs generalizing c with
  | nil => simp [insertAll]
  | cons p rest ih =>
    obtain ⟨r, d⟩ := p
    have hd : d.isObj = true := h (r, d) (List.mem_cons_self _ _)
    have hrest : ∀ q ∈ rest, (q.2).isObj = true :=
      fun q hq => h q (List.mem_cons_of_mem _ hq)
    cases d with
    | obj fs =>
      have hstep := ih
        { data := c.data ++ [Value.obj (setField fs "_id" (Value.str (uuidToString r)))],
          file := c.file ++
            [FileLine.val (Value.obj (setField fs "_id" (Value.str (uuidToString r))))] }
        hrest
      simp only [insertAll, Collection.insert, hstep, List.map_cons,
        List.append_assoc, List.singleton_append]
      rfl
    | null => simp [Value.isObj] at hd
    | bool b => simp [Value.isObj] at hd
    | num n => simp [Value.isObj] at hd
    | str s => simp [Value.isObj] at hd
    | arr xs => simp [Value.isObj] at hd

/-- C1: inserting N JSON objects into a fresh collection succeeds, and a
new `Collection` constructed over the resulting file loads exactly the N
tagged documents, in original insertion order, equal to the in-memory
sequence of the first instance. -/
theorem round_trip_insert_reload (docs : List (Nat × Value))
    (h : ∀ p ∈ docs, (p.2).isObj = true) :
    ∃ c : Collection, insertAll (Collection.new []) docs = Except.ok c ∧
      (Collection.new c.file).data = docs.map (fun p => tagDoc p.1 p.2) ∧
      (Collection.new c.file).data = c.data := by
  have hload : loadData (docs.map (fun p => FileLine.val (tagDoc p.1 p.2))) =
      docs.map (fun p => tagDoc p.1 p.2) := by
    rw [show (fun p : Nat × Value => FileLine.val (tagDoc p.1 p.2)) =
        (FileLine.val ∘ fun p : Nat × Value => tagDoc p.1 p.2) from rfl,
      ← List.map_map, loadData_map_val]
  refine ⟨_, insertAll_ok docs (Collection.new []) h, ?_, ?_⟩
  · simp only [Collection.new, List.nil_append]
    exact hload
  · simp only [Collection.new, List.nil_append]
    exact hload

/-- Witness for C1 with two concrete documents. -/
theorem round_trip_insert_reload_witness :
    ∃ c : Collection,
      insertAll (Collection.new [])
        [(0, Value.obj [("a", Value.num 1)]), (1, Value.obj [])] = Except.ok c ∧
      (Collection.new c.file).data =
        [(0, Value.obj [("a", Value.num 1)]), (1, Value.obj [])].map
          (fun p => tagDoc p.1 p.2) ∧
      (Collection.new c.file).data = c.data :=
  round_trip_insert_reload
    [(0, Value.obj [("a", Value.num 1)]), (1, Value.obj [])] (by decide)

end Ruggy
